import Mathlib

/-!
Shallow embedding of the agentic RAG orchestration loop
(`src/agentic_rag.py`, class `AgenticRAG`) together with the parts of the
retriever contract (`src/vector_store.py`) the claims depend on.

External collaborators (the FAISS vector store and the OpenAI chat client)
are modelled as an `Oracles` record of response functions: the retriever is
a function from the query string and fan-out to `Except` (an exception in
Python becomes `.error`), and each Generator call site is a function whose
`.ok none` value stands for a reply whose JSON fails to parse (the code
catches `json.loads` errors in the same `except` block as call failures).
Structured replies are represented by their field values as the code reads
them via `dict.get` with defaults.
-/

/-- A retrieved passage: the dictionaries produced by `VectorStore.search`
(`{**self.documents[idx], 'distance': float(distance)}`), carrying `text`,
`source` and a relevance figure.  The orchestration logic never inspects
`distance`, so its exact numeric type is irrelevant; we use `Int`. -/
structure Doc where
  text : String
  source : String
  distance : Int
deriving DecidableEq

/-- The planner's structured reply (`_plan_query`), as read via `.get`. -/
structure Plan where
  needs_decomposition : Bool
  reasoning : String
  sub_queries : List String
deriving DecidableEq

/-- The reflector's structured reply (`_check_completeness`), as read via `.get`. -/
structure Assessment where
  is_complete : Bool
  confidence : String
  missing_aspects : List String
  needs_refinement : Bool
  refinement_query : String
deriving DecidableEq

/-- One entry of `iterations_used` in `AgenticRAG.query`. -/
structure IterRec where
  iteration : Nat
  docs_retrieved : Nat
  refinement_query : Option String
  answer : String
deriving DecidableEq

/-- The dictionary returned by `AgenticRAG.query`. -/
structure QueryResult where
  answer : String
  sources : Finset String
  retrieved_docs : List Doc
  iterations : List IterRec
  plan : Plan
  total_docs_used : Nat
deriving DecidableEq

/-- The external collaborators of `AgenticRAG`: the vector store's `search`
and the three Generator call sites.  `planResp`/`assessResp` return
`.error` for a raised exception and `.ok none` for an unparseable reply;
both are caught by the same `except` clause in the source. -/
structure Oracles where
  search : String → Nat → Except String (List Doc)
  planResp : String → Except String (Option Plan)
  assessResp : String → String → List Doc → Except String (Option Assessment)
  genResp : String → List String → List String → Nat → Except String String

instance {e a : Type} [DecidableEq e] [DecidableEq a] : DecidableEq (Except e a) := fun x y =>
  match x, y with
  | .error u, .error w =>
    match decEq u w with
    | isTrue h => isTrue (by rw [h])
    | isFalse h => isFalse (by intro hc; injection hc with h2; exact h h2)
  | .error _, .ok _ => isFalse (by intro hc; injection hc)
  | .ok _, .error _ => isFalse (by intro hc; injection hc)
  | .ok u, .ok w =>
    match decEq u w with
    | isTrue h => isTrue (by rw [h])
    | isFalse h => isFalse (by intro hc; injection hc with h2; exact h h2)

/-- The fallback plan built in the `except` branch of `_plan_query`. -/
def fallbackPlan (msg : String) : Plan :=
  { needs_decomposition := false
    reasoning := "Planning failed: " ++ msg
    sub_queries := [] }

/-- The fallback assessment built in the `except` branch of `_check_completeness`. -/
def fallbackAssessment : Assessment :=
  { is_complete := true
    confidence := "medium"
    missing_aspects := []
    needs_refinement := false
    refinement_query := "" }

/-- `AgenticRAG._plan_query`: ask the Generator for a plan, falling back on
any call or parse failure. -/
def plan_query (O : Oracles) (q : String) : Plan :=
  match O.planResp q with
  | .ok (some p) => p
  | .ok none => fallbackPlan "invalid JSON"
  | .error e => fallbackPlan e

/-- `AgenticRAG._check_completeness`: ask the Generator for an assessment of
the current answer against the context, falling back on any failure. -/
def check_completeness (O : Oracles) (q answer : String) (docs : List Doc) : Assessment :=
  match O.assessResp q answer docs with
  | .ok (some a) => a
  | .ok none => fallbackAssessment
  | .error _ => fallbackAssessment

/-- `AgenticRAG._generate_answer`: the Generator call whose `except` branch
returns an error-describing string instead of raising. -/
def generate_answer (O : Oracles) (q : String) (contexts sources : List String)
    (iteration : Nat) : String :=
  match O.genResp q contexts sources iteration with
  | .ok s => s
  | .error e => "Error generating answer: " ++ e

/-- Lines 232-240 of `agentic_rag.py`: filter `all_retrieved_docs` keeping
the first occurrence of each `text`, threading the `seen_texts` set (here a
list used only through membership).  Returns the unique docs and the final
`seen_texts`, which records every text encountered (including ones later
dropped by the `[:k*2]` truncation). -/
def dedupSeen : List String → List Doc → List Doc × List String
  | seen, [] => ([], seen)
  | seen, d :: rest =>
    if d.text ∈ seen then dedupSeen seen rest
    else
      let r := dedupSeen (d.text :: seen) rest
      (d :: r.1, r.2)

/-- The per-query mutable state of `AgenticRAG.query`: `all_retrieved_docs`,
`seen_texts`, `all_sources`, the current `answer` and `iterations_used`. -/
structure LoopState where
  docs : List Doc
  seen : List String
  sources : Finset String
  answer : String
  records : List IterRec
deriving DecidableEq

/-- Lines 276-280 of `agentic_rag.py`: merge refinement-retrieved docs whose
text has not been seen, appending to `all_retrieved_docs` and adding their
`source` to `all_sources`. -/
def mergeNew : LoopState → List Doc → LoopState
  | st, [] => st
  | st, d :: rest =>
    if d.text ∈ st.seen then mergeNew st rest
    else
      mergeNew
        { st with
          docs := st.docs ++ [d]
          seen := d.text :: st.seen
          sources := insert d.source st.sources } rest

/-- Line 223 of `agentic_rag.py`: the list of searches to issue. -/
def queriesToSearch (O : Oracles) (q : String) : List String :=
  if (plan_query O q).needs_decomposition then (plan_query O q).sub_queries else [q]

/-- Lines 225-230 of `agentic_rag.py`: issue each initial search in order,
extending `all_retrieved_docs` and `all_sources`; an exception from `search`
propagates. -/
def searchAll (O : Oracles) (k : Nat) :
    List String → List Doc → Finset String → Except String (List Doc × Finset String)
  | [], docs, srcs => .ok (docs, srcs)
  | q :: rest, docs, srcs =>
    match O.search q k with
    | .error e => .error e
    | .ok ds =>
        searchAll O k rest (docs ++ ds) (srcs ∪ (ds.map (fun d => d.source)).toFinset)

/-- Lines 210-251 of `agentic_rag.py`: the state just before the refinement
loop — initial searches, dedup, `[:k*2]` truncation, initial answer and the
iteration-0 record. -/
def initialState (O : Oracles) (q : String) (k : Nat) : Except String LoopState :=
  match searchAll O k (queriesToSearch O q) [] (∅ : Finset String) with
  | .error e => .error e
  | .ok (allDocs, srcs) =>
    let dd := dedupSeen [] allDocs
    let docs0 := dd.1.take (k * 2)
    let ans0 := generate_answer O q (docs0.map (fun d => d.text))
      (docs0.map (fun d => d.source)) 0
    .ok
      { docs := docs0
        seen := dd.2
        sources := srcs
        answer := ans0
        records := [{ iteration := 0
                      docs_retrieved := docs0.length
                      refinement_query := none
                      answer := ans0 }] }

/-- Lines 254-292 of `agentic_rag.py`: the reflect–refine loop, iterated
over the remaining iteration numbers (`range(1, max_iterations)`).  Breaks
return the state unchanged; an exception from the refinement `search`
propagates. -/
def refineLoop (O : Oracles) (q : String) (k : Nat) :
    List Nat → LoopState → Except String LoopState
  | [], st => .ok st
  | it :: rest, st =>
    let a := check_completeness O q st.answer st.docs
    if !a.needs_refinement then .ok st
    else if a.refinement_query = "" then .ok st
    else
      match O.search a.refinement_query (k / 2) with
      | .error e => .error e
      | .ok additional =>
        let st1 := mergeNew st additional
        let ans := generate_answer O q
          ((st1.docs.take (k * 2)).map (fun d => d.text))
          ((st1.docs.take (k * 2)).map (fun d => d.source)) it
        refineLoop O q k rest
          { st1 with
            answer := ans
            records := st1.records ++
              [{ iteration := it
                 docs_retrieved := st1.docs.length
                 refinement_query := some a.refinement_query
                 answer := ans }] }

/-- `AgenticRAG.query` with the `verbose` printing erased (the log-carrying
variant `queryV` below is proved to compute the same result). -/
def query (O : Oracles) (q : String) (k maxIter : Nat) : Except String QueryResult :=
  match initialState O q k with
  | .error e => .error e
  | .ok st0 =>
    match refineLoop O q k (List.range' 1 (maxIter - 1)) st0 with
    | .error e => .error e
    | .ok st =>
      .ok
        { answer := st.answer
          sources := st.sources
          retrieved_docs := st.docs
          iterations := st.records
          plan := plan_query O q
          total_docs_used := st.docs.length }

/-- Lines 225-230 of `agentic_rag.py` with the `verbose` prints kept as an
output log (second component). -/
def searchAllV (O : Oracles) (k : Nat) (verbose : Bool) :
    List String → List Doc → Finset String →
    Except String (List Doc × Finset String) × List String
  | [], docs, srcs => (.ok (docs, srcs), [])
  | q :: rest, docs, srcs =>
    let l0 : List String := if verbose then ["Searching: " ++ q] else []
    match O.search q k with
    | .error e => (.error e, l0)
    | .ok ds =>
        let r := searchAllV O k verbose rest (docs ++ ds)
          (srcs ∪ (ds.map (fun d => d.source)).toFinset)
        (r.1, l0 ++ r.2)

/-- Lines 254-292 of `agentic_rag.py` with the `verbose` prints kept as an
output log. -/
def refineLoopV (O : Oracles) (q : String) (k : Nat) (verbose : Bool) :
    List Nat → LoopState → Except String LoopState × List String
  | [], st => (.ok st, [])
  | it :: rest, st =>
    let l0 : List String :=
      if verbose then ["Reflecting on answer (iteration " ++ toString it ++ ")..."] else []
    let a := check_completeness O q st.answer st.docs
    if !a.needs_refinement then
      (.ok st,
        l0 ++ (if verbose then ["Answer is complete (confidence: " ++ a.confidence ++ ")"] else []))
    else if a.refinement_query = "" then (.ok st, l0)
    else
      let l1 : List String :=
        if verbose then ["Refining search: " ++ a.refinement_query] else []
      match O.search a.refinement_query (k / 2) with
      | .error e => (.error e, l0 ++ l1)
      | .ok additional =>
        let st1 := mergeNew st additional
        let ans := generate_answer O q
          ((st1.docs.take (k * 2)).map (fun d => d.text))
          ((st1.docs.take (k * 2)).map (fun d => d.source)) it
        let r := refineLoopV O q k verbose rest
          { st1 with
            answer := ans
            records := st1.records ++
              [{ iteration := it
                 docs_retrieved := st1.docs.length
                 refinement_query := some a.refinement_query
                 answer := ans }] }
        (r.1, l0 ++ l1 ++ r.2)

/-- `AgenticRAG.query` (lines 198-301), the faithful embedding: first
component is the returned dictionary or the propagated exception, second
component the sequence of `verbose` prints. -/
def queryV (O : Oracles) (q : String) (k maxIter : Nat) (verbose : Bool) :
    Except String QueryResult × List String :=
  let l0 : List String := if verbose then ["Planning query..."] else []
  let plan := plan_query O q
  let l1 : List String :=
    if verbose && plan.needs_decomposition then
      ["Query decomposed into " ++ toString plan.sub_queries.length ++ " sub-queries"]
    else []
  let rs := searchAllV O k verbose (queriesToSearch O q) [] (∅ : Finset String)
  match rs.1 with
  | .error e => (.error e, l0 ++ l1 ++ rs.2)
  | .ok (allDocs, srcs) =>
    let dd := dedupSeen [] allDocs
    let docs0 := dd.1.take (k * 2)
    let ans0 := generate_answer O q (docs0.map (fun d => d.text))
      (docs0.map (fun d => d.source)) 0
    let st0 : LoopState :=
      { docs := docs0
        seen := dd.2
        sources := srcs
        answer := ans0
        records := [{ iteration := 0
                      docs_retrieved := docs0.length
                      refinement_query := none
                      answer := ans0 }] }
    let rl := refineLoopV O q k verbose (List.range' 1 (maxIter - 1)) st0
    match rl.1 with
    | .error e => (.error e, l0 ++ l1 ++ rs.2 ++ rl.2)
    | .ok st =>
      (.ok
        { answer := st.answer
          sources := st.sources
          retrieved_docs := st.docs
          iterations := st.records
          plan := plan
          total_docs_used := st.docs.length },
        l0 ++ l1 ++ rs.2 ++ rl.2)

/-- A passage literal used by the concrete runs below. -/
def mkDoc (t s : String) : Doc := { text := t, source := s, distance := 0 }

/-- Default iteration record for `headD`; its `iteration` field is a value
the program never produces, so `headD`-based statements are not vacuous. -/
def dummyRec : IterRec :=
  { iteration := 37, docs_retrieved := 0, refinement_query := none, answer := "" }

/-- Retrieved docs of a `query` outcome, empty on error. -/
def resDocs (e : Except String QueryResult) : List Doc :=
  match e with
  | .ok r => r.retrieved_docs
  | .error _ => []

/-- Source set of a `query` outcome, empty on error. -/
def resSources (e : Except String QueryResult) : Finset String :=
  match e with
  | .ok r => r.sources
  | .error _ => ∅

/-- The `total_docs_used` field of a successful `query` outcome. -/
def resTotal (e : Except String QueryResult) : Option Nat :=
  match e with
  | .ok r => some r.total_docs_used
  | .error _ => none

/-- The number of iteration records of a successful `query` outcome. -/
def resIterLen (e : Except String QueryResult) : Option Nat :=
  match e with
  | .ok r => some r.iterations.length
  | .error _ => none

/-- Collaborators whose Generator is down and whose index is empty. -/
def Odown : Oracles :=
  { search := fun _ _ => .ok []
    planResp := fun _ => .error "down"
    assessResp := fun _ _ _ => .error "down"
    genResp := fun _ _ _ _ => .ok "ans" }

/-- The result of `query Odown "q" 1 m` for any `m`. -/
def rDown : QueryResult :=
  { answer := "ans"
    sources := ∅
    retrieved_docs := []
    iterations := [{ iteration := 0, docs_retrieved := 0, refinement_query := none
                     answer := "ans" }]
    plan := fallbackPlan "down"
    total_docs_used := 0 }

/-- Concrete state used to instantiate the loop-level theorems. -/
def stW : LoopState :=
  { docs := [], seen := [], sources := ∅, answer := "a", records := [] }

/-- Retrieval table for the run refuting the 2k-cap claim. -/
def searchTableC1 (s : String) : List Doc :=
  if s = "a" then [mkDoc "t1" "A", mkDoc "t2" "A"]
  else if s = "b" then [mkDoc "t3" "B", mkDoc "t4" "B"]
  else if s = "more" then [mkDoc "t5" "C"]
  else []

/-- Collaborators for the run refuting the 2k-cap claim: the plan splits the
query into two sub-queries, each retrieval fills the cap, and the reflector
keeps asking for the refinement query "more". -/
def OC1 : Oracles :=
  { search := fun s n => .ok ((searchTableC1 s).take n)
    planResp := fun _ => .ok (some { needs_decomposition := true
                                     reasoning := "split"
                                     sub_queries := ["a", "b"] })
    assessResp := fun _ _ _ => .ok (some { is_complete := false
                                           confidence := "low"
                                           missing_aspects := []
                                           needs_refinement := true
                                           refinement_query := "more" })
    genResp := fun _ _ _ _ => .ok "ans" }

/-- Collaborators for the run refuting the refinement-error-recovery claim:
the primary search succeeds, the reflector demands the refinement query
"more", and the retriever raises on it. -/
def OC2 : Oracles :=
  { search := fun s _ => if s = "more" then .error "boom" else .ok [mkDoc "t1" "A"]
    planResp := fun _ => .error "down"
    assessResp := fun _ _ _ => .ok (some { is_complete := false
                                           confidence := "low"
                                           missing_aspects := []
                                           needs_refinement := true
                                           refinement_query := "more" })
    genResp := fun _ _ _ _ => .ok "ans" }

/-- The state `query OC2 "q" 2 _` has after its initial phase. -/
def st0W2 : LoopState :=
  { docs := [mkDoc "t1" "A"]
    seen := ["t1"]
    sources := {"A"}
    answer := "ans"
    records := [{ iteration := 0, docs_retrieved := 1, refinement_query := none
                  answer := "ans" }] }

/-- Collaborators for the run refuting the source-set claim: three
sub-queries, each returning one passage from a distinct source; the
`[:k*2]` truncation at `k = 1` then drops the third passage, but its source
has already been recorded. -/
def OC3 : Oracles :=
  { search := fun s _ =>
      if s = "a" then .ok [mkDoc "t1" "A"]
      else if s = "b" then .ok [mkDoc "t2" "B"]
      else if s = "c" then .ok [mkDoc "t3" "C"]
      else .ok []
    planResp := fun _ => .ok (some { needs_decomposition := true
                                     reasoning := "split"
                                     sub_queries := ["a", "b", "c"] })
    assessResp := fun _ _ _ => .ok (some { is_complete := true
                                           confidence := "high"
                                           missing_aspects := []
                                           needs_refinement := false
                                           refinement_query := "" })
    genResp := fun _ _ _ _ => .ok "ans" }

/-- The result of `query OC3 "q" 1 1`. -/
def rW3 : QueryResult :=
  { answer := "ans"
    sources := {"A", "B", "C"}
    retrieved_docs := [mkDoc "t1" "A", mkDoc "t2" "B"]
    iterations := [{ iteration := 0, docs_retrieved := 2, refinement_query := none
                     answer := "ans" }]
    plan := { needs_decomposition := true, reasoning := "split"
              sub_queries := ["a", "b", "c"] }
    total_docs_used := 2 }

/-- The pre-loop state of a run whose plan decomposed into zero sub-queries:
no search is issued, the context is empty, and the synthesizer is called on
an empty context. -/
def emptyInit (O : Oracles) (q : String) : LoopState :=
  { docs := []
    seen := []
    sources := ∅
    answer := generate_answer O q [] [] 0
    records := [{ iteration := 0
                  docs_retrieved := 0
                  refinement_query := none
                  answer := generate_answer O q [] [] 0 }] }

/-- Collaborators for the run refuting the `total_docs_used = 0` part of
C10: the plan decomposes into zero sub-queries, but the reflector demands
the refinement query "more" and that search returns a passage. -/
def OC10 : Oracles :=
  { search := fun s _ => if s = "more" then .ok [mkDoc "t9" "Z"] else .ok []
    planResp := fun _ => .ok (some { needs_decomposition := true
                                     reasoning := "dec"
                                     sub_queries := [] })
    assessResp := fun _ _ _ => .ok (some { is_complete := false
                                           confidence := "low"
                                           missing_aspects := []
                                           needs_refinement := true
                                           refinement_query := "more" })
    genResp := fun _ _ _ _ => .ok "ans" }

/-- The result of `query OC10 "q" 2 1`. -/
def rW10 : QueryResult :=
  { answer := "ans"
    sources := ∅
    retrieved_docs := []
    iterations := [{ iteration := 0, docs_retrieved := 0, refinement_query := none
                     answer := "ans" }]
    plan := { needs_decomposition := true, reasoning := "dec", sub_queries := [] }
    total_docs_used := 0 }

theorem searchAllV_fst (O : Oracles) (k : Nat) (verbose : Bool) :
    ∀ qs docs srcs, (searchAllV O k verbose qs docs srcs).1 = searchAll O k qs docs srcs := by
  intro qs
  induction qs with
  | nil => intro docs srcs; rfl
  | cons q rest ih =>
    intro docs srcs
    simp only [searchAllV, searchAll]
    cases O.search q k with
    | error e => rfl
    | ok ds => simp [ih]

theorem refineLoopV_fst (O : Oracles) (q : String) (k : Nat) (verbose : Bool) :
    ∀ its st, (refineLoopV O q k verbose its st).1 = refineLoop O q k its st := by
  intro its
  induction its with
  | nil => intro st; rfl
  | cons it rest ih =>
    intro st
    simp only [refineLoopV, refineLoop]
    cases h1 : (check_completeness O q st.answer st.docs).needs_refinement with
    | false => simp [h1]
    | true =>
      simp only [h1, Bool.not_true, Bool.false_eq_true, if_false]
      by_cases h2 : (check_completeness O q st.answer st.docs).refinement_query = ""
      · simp [h2]
      · simp only [if_neg h2]
        cases O.search (check_completeness O q st.answer st.docs).refinement_query (k / 2) with
        | error e => rfl
        | ok additional => simp [ih]

theorem queryV_fst (O : Oracles) (q : String) (k maxIter : Nat) (verbose : Bool) :
    (queryV O q k maxIter verbose).1 = query O q k maxIter := by
  simp only [queryV, query, initialState, searchAllV_fst]
  cases searchAll O k (queriesToSearch O q) [] (∅ : Finset String) with
  | error e => rfl
  | ok p =>
    obtain ⟨allDocs, srcs⟩ := p
    simp only [refineLoopV_fst]
    cases refineLoop O q k (List.range' 1 (maxIter - 1)) _ with
    | error e => rfl
    | ok st => rfl

theorem mergeNew_spec : ∀ (ds : List Doc) (st : LoopState), ∃ extra : List Doc,
    (mergeNew st ds).docs = st.docs ++ extra ∧
    (mergeNew st ds).sources = st.sources ∪ (extra.map (fun d => d.source)).toFinset ∧
    (mergeNew st ds).records = st.records ∧
    (mergeNew st ds).answer = st.answer ∧
    extra.length ≤ ds.length := by
  intro ds
  induction ds with
  | nil =>
    intro st
    exact ⟨[], by simp [mergeNew]⟩
  | cons d rest ih =>
    intro st
    by_cases h : d.text ∈ st.seen
    · obtain ⟨extra, h1, h2, h3, h4, h5⟩ := ih st
      refine ⟨extra, ?_, ?_, ?_, ?_, ?_⟩ <;>
        simp [mergeNew, h, h1, h2, h3, h4, Nat.le_succ_of_le h5]
    · obtain ⟨extra, h1, h2, h3, h4, h5⟩ := ih
        { st with
          docs := st.docs ++ [d]
          seen := d.text :: st.seen
          sources := insert d.source st.sources }
      refine ⟨d :: extra, ?_, ?_, ?_, ?_, ?_⟩
      · simp only [mergeNew, if_neg h, h1]
        simp
      · simp only [mergeNew, if_neg h, h2]
        simp [Finset.insert_union]
      · simp only [mergeNew, if_neg h, h3]
      · simp only [mergeNew, if_neg h, h4]
      · simpa using Nat.succ_le_succ h5

theorem searchAll_spec (O : Oracles) (k : Nat) :
    ∀ (qs : List String) (docs : List Doc) (srcs : Finset String) docs' srcs',
      searchAll O k qs docs srcs = .ok (docs', srcs') →
      ∃ extra : List Doc, docs' = docs ++ extra ∧
        srcs' = srcs ∪ (extra.map (fun d => d.source)).toFinset := by
  intro qs
  induction qs with
  | nil =>
    intro docs srcs docs' srcs' h
    simp only [searchAll, Except.ok.injEq, Prod.mk.injEq] at h
    exact ⟨[], by simp [h.1, h.2]⟩
  | cons qq rest ih =>
    intro docs srcs docs' srcs' h
    simp only [searchAll] at h
    cases hs : O.search qq k with
    | error e => rw [hs] at h; exact absurd h (by simp)
    | ok ds =>
      rw [hs] at h
      obtain ⟨extra, h1, h2⟩ := ih _ _ _ _ h
      refine ⟨ds ++ extra, ?_, ?_⟩
      · rw [h1, List.append_assoc]
      · rw [h2]
        simp [Finset.union_assoc]

theorem refineLoop_spec (O : Oracles) (q : String) (k : Nat) :
    ∀ (its : List Nat) (st st' : LoopState), refineLoop O q k its st = .ok st' →
      ∃ (extra : List Doc) (nrecs : List IterRec),
        st'.docs = st.docs ++ extra ∧
        st'.sources = st.sources ∪ (extra.map (fun d => d.source)).toFinset ∧
        st'.records = st.records ++ nrecs ∧
        nrecs.length ≤ its.length := by
  intro its
  induction its with
  | nil =>
    intro st st' h
    simp only [refineLoop, Except.ok.injEq] at h
    exact ⟨[], [], by simp [h]⟩
  | cons it rest ih =>
    intro st st' h
    simp only [refineLoop] at h
    split at h
    · injection h with h
      exact ⟨[], [], by simp [h]⟩
    · split at h
      · injection h with h
        exact ⟨[], [], by simp [h]⟩
      · split at h
        · exact absurd h (by simp)
        · rename_i additional heq
          obtain ⟨extra2, nrecs2, g1, g2, g3, g4⟩ := ih _ _ h
          obtain ⟨extra1, m1, m2, m3, m4, m5⟩ := mergeNew_spec additional st
          dsimp only at g1 g2 g3
          rw [m1, List.append_assoc] at g1
          rw [m2] at g2
          rw [m3, List.append_assoc, List.singleton_append] at g3
          have g2' : st'.sources =
              st.sources ∪ ((extra1 ++ extra2).map (fun d => d.source)).toFinset := by
            rw [g2]
            simp [Finset.union_assoc]
          exact ⟨extra1 ++ extra2, _, g1, g2', g3, by simpa using Nat.succ_le_succ g4⟩

theorem refineLoop_len (O : Oracles) (q : String) (k : Nat)
    (hO : ∀ s ds, O.search s (k / 2) = .ok ds → ds.length ≤ k / 2) :
    ∀ (its : List Nat) (st st' : LoopState), refineLoop O q k its st = .ok st' →
      ∃ nr : Nat, st'.records.length = st.records.length + nr ∧
        st'.docs.length ≤ st.docs.length + nr * (k / 2) := by
  intro its
  induction its with
  | nil =>
    intro st st' h
    simp only [refineLoop, Except.ok.injEq] at h
    exact ⟨0, by simp [h]⟩
  | cons it rest ih =>
    intro st st' h
    simp only [refineLoop] at h
    split at h
    · injection h with h
      exact ⟨0, by simp [h]⟩
    · split at h
      · injection h with h
        exact ⟨0, by simp [h]⟩
      · split at h
        · exact absurd h (by simp)
        · rename_i additional heq
          obtain ⟨nr2, g1, g2⟩ := ih _ _ h
          obtain ⟨extra1, m1, m2, m3, m4, m5⟩ := mergeNew_spec additional st
          have hlen : additional.length ≤ k / 2 := hO _ _ heq
          refine ⟨nr2 + 1, ?_, ?_⟩
          · simp only [g1, List.length_append, m3, List.length_cons, List.length_nil] at *
            omega
          · have hd : (mergeNew st additional).docs.length ≤ st.docs.length + k / 2 := by
              rw [m1]
              simp only [List.length_append]
              omega
            calc st'.docs.length
                ≤ (mergeNew st additional).docs.length + nr2 * (k / 2) := g2
              _ ≤ st.docs.length + k / 2 + nr2 * (k / 2) := by omega
              _ = st.docs.length + (nr2 + 1) * (k / 2) := by ring

theorem dedupSeen_not_seen : ∀ (l : List Doc) (seen : List String),
    ∀ d' ∈ (dedupSeen seen l).1, d'.text ∉ seen := by
  intro l
  induction l with
  | nil => intro seen d' hd'; simp [dedupSeen] at hd'
  | cons d rest ih =>
    intro seen d' hd'
    simp only [dedupSeen] at hd'
    by_cases h : d.text ∈ seen
    · rw [if_pos h] at hd'
      exact ih seen d' hd'
    · rw [if_neg h] at hd'
      rcases List.mem_cons.mp hd' with rfl | hm
      · exact h
      · intro hc
        exact ih _ _ hm (List.mem_cons_of_mem _ hc)

theorem dedupSeen_sublist : ∀ (l : List Doc) (seen : List String),
    (dedupSeen seen l).1.Sublist l := by
  intro l
  induction l with
  | nil => intro seen; simp [dedupSeen]
  | cons d rest ih =>
    intro seen
    simp only [dedupSeen]
    by_cases h : d.text ∈ seen
    · rw [if_pos h]
      exact (ih seen).cons _
    · rw [if_neg h]
      exact (ih _).cons₂ _

theorem dedupSeen_nodup : ∀ (l : List Doc) (seen : List String),
    ((dedupSeen seen l).1.map (fun d => d.text)).Nodup := by
  intro l
  induction l with
  | nil => intro seen; simp [dedupSeen]
  | cons d rest ih =>
    intro seen
    simp only [dedupSeen]
    by_cases h : d.text ∈ seen
    · rw [if_pos h]
      exact ih seen
    · rw [if_neg h]
      simp only [List.map_cons, List.nodup_cons]
      refine ⟨?_, ih _⟩
      intro hc
      obtain ⟨d', hd', he⟩ := List.mem_map.mp hc
      exact dedupSeen_not_seen rest (d.text :: seen) d' hd' (by rw [he]; exact List.mem_cons_self _ _)

theorem dedupSeen_covers : ∀ (l : List Doc) (seen : List String) (d : Doc),
    d ∈ l → d.text ∉ seen → ∃ d' ∈ (dedupSeen seen l).1, d'.text = d.text := by
  intro l
  induction l with
  | nil => intro seen d hd; simp at hd
  | cons d0 rest ih =>
    intro seen d hd hns
    simp only [dedupSeen]
    by_cases h : d0.text ∈ seen
    · rw [if_pos h]
      rcases List.mem_cons.mp hd with rfl | hm
      · exact absurd h hns
      · exact ih seen d hm hns
    · rw [if_neg h]
      rcases List.mem_cons.mp hd with rfl | hm
      · exact ⟨d, List.mem_cons_self _ _, rfl⟩
      · by_cases ht : d.text = d0.text
        · exact ⟨d0, List.mem_cons_self _ _, ht.symm⟩
        · obtain ⟨d', hd', he⟩ := ih (d0.text :: seen) d hm (by
            intro hc
            rcases List.mem_cons.mp hc with h1 | h1
            · exact ht h1
            · exact hns h1)
          exact ⟨d', List.mem_cons_of_mem _ hd', he⟩

theorem dedupSeen_first : ∀ (l : List Doc) (seen : List String),
    ∀ d' ∈ (dedupSeen seen l).1, l.find? (fun d => d.text == d'.text) = some d' := by
  intro l
  induction l with
  | nil => intro seen d' hd'; simp [dedupSeen] at hd'
  | cons d0 rest ih =>
    intro seen d' hd'
    simp only [dedupSeen] at hd'
    by_cases h : d0.text ∈ seen
    · rw [if_pos h] at hd'
      have hns := dedupSeen_not_seen rest seen d' hd'
      have hne : (d0.text == d'.text) = false := by
        simp only [beq_eq_false_iff_ne, ne_eq]
        intro hc
        exact hns (hc ▸ h)
      rw [List.find?_cons, hne]
      exact ih seen d' hd'
    · rw [if_neg h] at hd'
      rcases List.mem_cons.mp hd' with rfl | hm
      · exact List.find?_cons_of_pos _ (by simp)
      · have hns := dedupSeen_not_seen rest (d0.text :: seen) d' hm
        have hne : (d0.text == d'.text) = false := by
          simp only [beq_eq_false_iff_ne, ne_eq]
          intro hc
          exact hns (by rw [← hc]; exact List.mem_cons_self _ _)
        rw [List.find?_cons, hne]
        exact ih _ d' hm

theorem dedupSeen_toFinset (l : List Doc) :
    ((dedupSeen [] l).1.map (fun d => d.text)).toFinset = (l.map (fun d => d.text)).toFinset := by
  apply Finset.Subset.antisymm
  · intro t ht
    simp only [List.mem_toFinset, List.mem_map] at ht ⊢
    obtain ⟨d', hd', he⟩ := ht
    exact ⟨d', (dedupSeen_sublist l []).subset hd', he⟩
  · intro t ht
    simp only [List.mem_toFinset, List.mem_map] at ht ⊢
    obtain ⟨d, hd, he⟩ := ht
    obtain ⟨d', hd', he'⟩ := dedupSeen_covers l [] d hd (by simp)
    exact ⟨d', hd', by rw [he', he]⟩

theorem initialState_spec (O : Oracles) (q : String) (k : Nat) (st0 : LoopState)
    (h : initialState O q k = .ok st0) :
    st0.docs.length ≤ k * 2 ∧
    st0.records = [{ iteration := 0
                     docs_retrieved := st0.docs.length
                     refinement_query := none
                     answer := st0.answer }] := by
  unfold initialState at h
  cases hs : searchAll O k (queriesToSearch O q) [] (∅ : Finset String) with
  | error e => rw [hs] at h; exact absurd h (by simp)
  | ok p =>
    rw [hs] at h
    obtain ⟨allDocs, srcs⟩ := p
    injection h with h
    subst h
    exact ⟨List.length_take_le _ _, rfl⟩

/-- C5: deduplication keeps, for each text, exactly one passage — the one at
the first occurrence — preserves the input order of those first occurrences,
and compares passages by exact `text` equality only (a later passage with
the same text but different `source` or `distance` is still dropped, because
the kept representative is always the `find?`-first passage of that text). -/
theorem C5_dedup_text_only (l : List Doc) :
    (dedupSeen [] l).1.Sublist l ∧
    ((dedupSeen [] l).1.map (fun d => d.text)).Nodup ∧
    ((dedupSeen [] l).1.map (fun d => d.text)).toFinset = (l.map (fun d => d.text)).toFinset ∧
    ((dedupSeen [] l).1.all fun d' =>
      l.find? (fun d => d.text == d'.text) == some d') = true := by
  refine ⟨dedupSeen_sublist l [], dedupSeen_nodup l [], dedupSeen_toFinset l, ?_⟩
  rw [List.all_eq_true]
  intro d' hd'
  rw [beq_iff_eq]
  exact dedupSeen_first l [] d' hd'

/-- C6: if the Generator call inside the planner fails, or its output fails
to parse, the plan is the fallback with `needs_decomposition = false` and
`sub_queries = []`; `plan_query` is total, so no failure reaches the caller. -/
theorem C6_planner_fallback (O : Oracles) (q e : String)
    (h : O.planResp q = .error e ∨ O.planResp q = .ok none) :
    (plan_query O q).needs_decomposition = false ∧ (plan_query O q).sub_queries = [] := by
  rcases h with h | h <;> simp [plan_query, h, fallbackPlan]

theorem C6_planner_fallback_witness :
    (Odown.planResp "q" = .error "down" ∨ Odown.planResp "q" = .ok none) ∧
    (plan_query Odown "q").needs_decomposition = false ∧
    (plan_query Odown "q").sub_queries = [] :=
  ⟨Or.inl rfl, C6_planner_fallback Odown "q" "down" (Or.inl rfl)⟩

/-- C7: if the Generator call inside the completeness assessment fails, or
its output fails to parse, the assessment is the conservative fallback with
`is_complete = true` and `needs_refinement = false`, which makes the
reflect–refine loop break on that pass. -/
theorem C7_reflector_fallback (O : Oracles) (q ans e : String) (docs : List Doc)
    (h : O.assessResp q ans docs = .error e ∨ O.assessResp q ans docs = .ok none) :
    (check_completeness O q ans docs).is_complete = true ∧
    (check_completeness O q ans docs).needs_refinement = false := by
  rcases h with h | h <;> simp [check_completeness, h, fallbackAssessment]

theorem C7_reflector_fallback_witness :
    (Odown.assessResp "q" "a" [] = .error "down" ∨ Odown.assessResp "q" "a" [] = .ok none) ∧
    (check_completeness Odown "q" "a" []).is_complete = true ∧
    (check_completeness Odown "q" "a" []).needs_refinement = false :=
  ⟨Or.inl rfl, C7_reflector_fallback Odown "q" "a" "down" [] (Or.inl rfl)⟩

/-- C8: on any reflect pass whose assessment carries an empty
`refinement_query`, the loop returns the state unchanged — no retrieval, no
new iteration record, and no further passes — whatever `needs_refinement`
says (if `needs_refinement` is false the first break fires, otherwise the
empty-query break fires). -/
theorem C8_empty_refinement_terminates (O : Oracles) (q : String) (k it : Nat)
    (rest : List Nat) (st : LoopState)
    (h : (check_completeness O q st.answer st.docs).refinement_query = "") :
    refineLoop O q k (it :: rest) st = .ok st := by
  simp only [refineLoop]
  cases hn : (check_completeness O q st.answer st.docs).needs_refinement
  · simp
  · simp [h]

theorem C8_empty_refinement_terminates_witness :
    (check_completeness Odown "q" stW.answer stW.docs).refinement_query = "" ∧
    refineLoop Odown "q" 1 [1] stW = .ok stW :=
  ⟨by decide, C8_empty_refinement_terminates Odown "q" 1 1 [] stW (by decide)⟩

/-- C9: the `verbose` flag changes only the log of printed progress lines,
never the returned result: two runs differing only in `verbose` produce the
same answer, sources, retrieved docs, iteration records and plan, and in
particular issue the same retrievals and make the same loop decisions. -/
theorem C9_verbose_no_influence (O : Oracles) (q : String) (k m : Nat) (v1 v2 : Bool) :
    (queryV O q k m v1).1 = (queryV O q k m v2).1 := by
  rw [queryV_fst, queryV_fst]

/-- C1 counterexample: with fan-out `k = 2` and `max_iterations = 2`, the
initial aggregation fills the cap with 4 passages and the refinement pass
merges a fifth without re-truncating, so the aggregated context ends with
5 > 2k entries — the claimed "at most 2k after every aggregation step" is
false for the refinement step. -/
theorem C1_cap_cex :
    (resDocs (queryV OC1 "q" 2 2 false).1).length = 5 ∧
    ¬ (resDocs (queryV OC1 "q" 2 2 false).1).length ≤ 2 * 2 := by decide

/-- C1 (amended): the `[:k*2]` truncation is applied only to the initial
aggregation (so the iteration-0 record reports at most 2k passages), while
each refinement pass appends its not-yet-seen retrieved passages without
re-truncating; since a refinement retrieval returns at most `k / 2`
passages, the final context holds at most `2k + (len(iterations) - 1)·(k/2)`
passages. -/
theorem C1_cap_amended (O : Oracles) (q : String) (k m : Nat) (v : Bool) (r : QueryResult)
    (hO : ∀ s n ds, O.search s n = .ok ds → ds.length ≤ n)
    (h : (queryV O q k m v).1 = .ok r) :
    (r.iterations.headD dummyRec).docs_retrieved ≤ 2 * k ∧
    r.retrieved_docs.length ≤ 2 * k + (r.iterations.length - 1) * (k / 2) := by
  rw [queryV_fst] at h
  unfold query at h
  cases hi : initialState O q k with
  | error e => rw [hi] at h; exact absurd h (by simp)
  | ok st0 =>
    rw [hi] at h
    dsimp only at h
    cases hl : refineLoop O q k (List.range' 1 (m - 1)) st0 with
    | error e => rw [hl] at h; exact absurd h (by simp)
    | ok st =>
      rw [hl] at h
      dsimp only at h
      injection h with h
      subst h
      obtain ⟨h2k, hrec0⟩ := initialState_spec O q k st0 hi
      obtain ⟨extra, nrecs, g1, g2, g3, g4⟩ := refineLoop_spec O q k _ st0 st hl
      obtain ⟨nr, n1, n2⟩ :=
        refineLoop_len O q k (fun s ds hds => hO s (k / 2) ds hds) _ st0 st hl
      have hlen1 : st0.records.length = 1 := by rw [hrec0]; rfl
      constructor
      · dsimp only
        rw [g3, hrec0]
        simp only [List.cons_append, List.nil_append, List.headD_cons]
        omega
      · dsimp only
        have hnr : st.records.length - 1 = nr := by omega
        rw [hnr]
        calc st.docs.length ≤ st0.docs.length + nr * (k / 2) := n2
          _ ≤ 2 * k + nr * (k / 2) :=
              Nat.add_le_add_right (by omega) (nr * (k / 2))

theorem C1_cap_amended_witness :
    (rDown.iterations.headD dummyRec).docs_retrieved ≤ 2 * 1 ∧
    rDown.retrieved_docs.length ≤ 2 * 1 + (rDown.iterations.length - 1) * (1 / 2) :=
  C1_cap_amended Odown "q" 1 1 false rDown
    (by intro s n ds hds; injection hds with hds; rw [← hds]; exact Nat.zero_le n)
    (by decide)

/-- C2 counterexample: when the refinement search raises, `query` does not
degrade to the status-quo answer — the exception propagates and the whole
call returns the error, refuting the claimed recovery. -/
theorem C2_refinement_error_cex :
    (queryV OC2 "q" 2 2 false).1 = .error "boom" := by decide

/-- C2 (amended): a refinement-search failure is NOT recovered: whenever the
loop reaches a pass whose assessment demands refinement with a non-empty
query and the retriever raises on that query, the error propagates out of
`query` and aborts the call (shown here for the first reflection pass). -/
theorem C2_refinement_error_amended (O : Oracles) (q : String) (k m : Nat) (v : Bool)
    (st0 : LoopState) (e : String)
    (h0 : initialState O q k = .ok st0)
    (ha : (check_completeness O q st0.answer st0.docs).needs_refinement = true)
    (hq : ¬ (check_completeness O q st0.answer st0.docs).refinement_query = "")
    (he : O.search (check_completeness O q st0.answer st0.docs).refinement_query (k / 2) = .error e)
    (hm : 2 ≤ m) :
    (queryV O q k m v).1 = .error e := by
  rw [queryV_fst]
  unfold query
  rw [h0]
  obtain ⟨m', rfl⟩ : ∃ m', m = m' + 2 := ⟨m - 2, by omega⟩
  have hr : List.range' 1 (m' + 2 - 1) = 1 :: List.range' 2 m' := by
    have h1 : m' + 2 - 1 = m' + 1 := by omega
    rw [h1, List.range'_succ]
  rw [hr]
  have hL : refineLoop O q k (1 :: List.range' 2 m') st0 = .error e := by
    simp only [refineLoop, ha, Bool.not_true, Bool.false_eq_true, if_false]
    rw [if_neg hq, he]
  dsimp only
  rw [hL]

theorem C2_refinement_error_amended_witness :
    (queryV OC2 "q" 2 2 false).1 = .error "boom" :=
  C2_refinement_error_amended OC2 "q" 2 2 false st0W2 "boom"
    (by decide) (by decide) (by decide) (by decide) (by omega)

theorem initialState_of_searchAll (O : Oracles) (q : String) (k : Nat)
    (allDocs : List Doc) (srcs : Finset String)
    (hinit : searchAll O k (queriesToSearch O q) [] (∅ : Finset String) = .ok (allDocs, srcs)) :
    ∃ st0, initialState O q k = .ok st0 ∧
      st0.docs = (dedupSeen [] allDocs).1.take (k * 2) ∧
      st0.sources = srcs := by
  unfold initialState
  rw [hinit]
  exact ⟨_, rfl, rfl, rfl⟩

/-- C3 counterexample: source "C" appears in `QueryResult.sources` although
no passage from source "C" was ever merged into the aggregated context (its
passage was dropped by the `[:k*2]` truncation), refuting the claim that
`sources` contains exactly the sources of merged passages. -/
theorem C3_sources_cex :
    "C" ∈ resSources (queryV OC3 "q" 1 1 false).1 ∧
    "C" ∉ (resDocs (queryV OC3 "q" 1 1 false).1).map (fun d => d.source) := by decide

/-- C3 (amended): `QueryResult.sources` is the set of source ids of ALL
passages retrieved in the initial phase — including ones excluded from the
context by deduplication or by the `[:k*2]` truncation — united with the
source ids of exactly those refinement-retrieved passages that were merged
(the final context minus its initial prefix). -/
theorem C3_sources_amended (O : Oracles) (q : String) (k m : Nat) (v : Bool) (r : QueryResult)
    (allDocs : List Doc) (srcs : Finset String)
    (hinit : searchAll O k (queriesToSearch O q) [] (∅ : Finset String) = .ok (allDocs, srcs))
    (h : (queryV O q k m v).1 = .ok r) :
    r.sources = (allDocs.map (fun d => d.source)).toFinset ∪
      ((r.retrieved_docs.drop (((dedupSeen [] allDocs).1.take (k * 2)).length)).map
        (fun d => d.source)).toFinset := by
  rw [queryV_fst] at h
  unfold query at h
  obtain ⟨st0, hi, hd0, hsrc⟩ := initialState_of_searchAll O q k allDocs srcs hinit
  rw [hi] at h
  dsimp only at h
  cases hl : refineLoop O q k (List.range' 1 (m - 1)) st0 with
  | error e => rw [hl] at h; exact absurd h (by simp)
  | ok st =>
    rw [hl] at h
    dsimp only at h
    injection h with h
    subst h
    obtain ⟨extra, nrecs, g1, g2, g3, g4⟩ := refineLoop_spec O q k _ st0 st hl
    obtain ⟨extra0, e1, e2⟩ := searchAll_spec O k _ _ _ _ _ hinit
    simp only [List.nil_append] at e1
    subst e1
    have hdrop : st.docs.drop (((dedupSeen [] allDocs).1.take (k * 2)).length) = extra := by
      rw [g1, hd0]
      exact List.drop_left _ _
    dsimp only
    rw [hdrop, g2, hsrc, e2]
    simp [Finset.union_assoc]

theorem C3_sources_amended_witness :
    rW3.sources =
      (([mkDoc "t1" "A", mkDoc "t2" "B", mkDoc "t3" "C"]).map (fun d => d.source)).toFinset ∪
      ((rW3.retrieved_docs.drop
          (((dedupSeen [] [mkDoc "t1" "A", mkDoc "t2" "B", mkDoc "t3" "C"]).1.take
            (1 * 2)).length)).map (fun d => d.source)).toFinset :=
  C3_sources_amended OC3 "q" 1 1 false rW3
    [mkDoc "t1" "A", mkDoc "t2" "B", mkDoc "t3" "C"] {"A", "B", "C"}
    (by decide) (by decide)

/-- C4 counterexample: with `max_iterations = 0` the loop `range(1, 0)` is
empty but the iteration-0 record is still appended, so `iterations` has one
record and the claimed bound `len(iterations) ≤ max_iterations` fails. -/
theorem C4_bounded_cex :
    resIterLen (queryV Odown "q" 1 0 false).1 = some 1 ∧ ¬ (1 ≤ 0) := by decide

/-- C4 (amended): `len(iterations) ≤ max(max_iterations, 1)` — the bound
claimed by the spec holds whenever `max_iterations ≥ 1`, but one record is
always produced even for `max_iterations ≤ 0` — and the first record always
has iteration number 0. -/
theorem C4_bounded_amended (O : Oracles) (q : String) (k m : Nat) (v : Bool)
    (r : QueryResult) (h : (queryV O q k m v).1 = .ok r) :
    r.iterations.length ≤ max m 1 ∧
    r.iterations ≠ [] ∧
    (r.iterations.headD dummyRec).iteration = 0 := by
  rw [queryV_fst] at h
  unfold query at h
  cases hi : initialState O q k with
  | error e => rw [hi] at h; exact absurd h (by simp)
  | ok st0 =>
    rw [hi] at h
    dsimp only at h
    cases hl : refineLoop O q k (List.range' 1 (m - 1)) st0 with
    | error e => rw [hl] at h; exact absurd h (by simp)
    | ok st =>
      rw [hl] at h
      dsimp only at h
      injection h with h
      subst h
      obtain ⟨h2k, hrec0⟩ := initialState_spec O q k st0 hi
      obtain ⟨extra, nrecs, g1, g2, g3, g4⟩ := refineLoop_spec O q k _ st0 st hl
      rw [List.length_range'] at g4
      refine ⟨?_, ?_, ?_⟩
      · dsimp only
        rw [g3, hrec0]
        simp only [List.length_append, List.length_cons, List.length_nil]
        omega
      · dsimp only
        rw [g3, hrec0]
        simp
      · dsimp only
        rw [g3, hrec0]
        simp only [List.cons_append, List.nil_append, List.headD_cons]

theorem C4_bounded_amended_witness :
    rDown.iterations.length ≤ max 3 1 ∧
    rDown.iterations ≠ [] ∧
    (rDown.iterations.headD dummyRec).iteration = 0 :=
  C4_bounded_amended Odown "q" 1 3 false rDown (by decide)

/-- C10 counterexample: with `needs_decomposition = true` and empty
`sub_queries`, the initial phase retrieves nothing, but a refinement pass
(at `max_iterations = 2`) merges one passage, so `total_docs_used` is 1,
not 0 as the claim asserts unconditionally. -/
theorem C10_empty_decomposition_cex :
    (plan_query OC10 "q").needs_decomposition = true ∧
    (plan_query OC10 "q").sub_queries = [] ∧
    resTotal (queryV OC10 "q" 2 2 false).1 = some 1 := by decide

/-- C10 (amended): when the plan has `needs_decomposition = true` and empty
`sub_queries`, `query` issues zero initial retrievals (the fallback to
searching the original query applies only when `needs_decomposition` is
false), still calls the synthesizer on the empty context (the iteration-0
record reports 0 docs and carries the empty-context answer), and
`total_docs_used` equals the number of passages merged by refinement
passes — in particular it is 0 whenever `max_iterations ≤ 1`, but not in
general. -/
theorem C10_empty_decomposition_amended (O : Oracles) (q : String) (k m : Nat) (v : Bool)
    (r : QueryResult)
    (hp : (plan_query O q).needs_decomposition = true)
    (hs : (plan_query O q).sub_queries = [])
    (h : (queryV O q k m v).1 = .ok r) :
    r.iterations ≠ [] ∧
    (r.iterations.headD dummyRec).docs_retrieved = 0 ∧
    (r.iterations.headD dummyRec).answer = generate_answer O q [] [] 0 ∧
    r.total_docs_used = r.retrieved_docs.length ∧
    (m ≤ 1 → r.total_docs_used = 0 ∧ r.sources = (∅ : Finset String)) := by
  have hqs : queriesToSearch O q = [] := by
    unfold queriesToSearch
    rw [hp, hs]
    simp
  have hi : initialState O q k = .ok (emptyInit O q) := by
    unfold initialState
    rw [hqs]
    simp only [searchAll, dedupSeen, List.take_nil, List.map_nil, List.length_nil, emptyInit]
  rw [queryV_fst] at h
  unfold query at h
  rw [hi] at h
  dsimp only at h
  cases hl : refineLoop O q k (List.range' 1 (m - 1)) (emptyInit O q) with
  | error e => rw [hl] at h; exact absurd h (by simp)
  | ok st =>
    rw [hl] at h
    dsimp only at h
    injection h with h
    subst h
    obtain ⟨extra, nrecs, g1, g2, g3, g4⟩ := refineLoop_spec O q k _ _ st hl
    refine ⟨?_, ?_, ?_, rfl, ?_⟩
    · dsimp only
      rw [g3]
      simp [emptyInit]
    · dsimp only
      rw [g3]
      simp [emptyInit]
    · dsimp only
      rw [g3]
      simp [emptyInit]
    · intro hm1
      have hz : m - 1 = 0 := by omega
      rw [hz] at hl
      simp only [List.range'_zero, refineLoop, Except.ok.injEq] at hl
      subst hl
      exact ⟨rfl, rfl⟩

theorem C10_empty_decomposition_amended_witness :
    rW10.iterations ≠ [] ∧
    (rW10.iterations.headD dummyRec).docs_retrieved = 0 ∧
    (rW10.iterations.headD dummyRec).answer = generate_answer OC10 "q" [] [] 0 ∧
    rW10.total_docs_used = rW10.retrieved_docs.length ∧
    (1 ≤ 1 → rW10.total_docs_used = 0 ∧ rW10.sources = (∅ : Finset String)) :=
  C10_empty_decomposition_amended OC10 "q" 2 1 false rW10 (by decide) (by decide) (by decide)
